import Mathlib

/-!
Shallow embedding of the household-expense Discord bot (`src/bot.py`).

The bot keeps one Postgres table `payments` and exposes chat commands
`pay`, `recent`, `delete`, `undo`, `summary`, `month`.  We embed the
table as a Lean list of rows and each command's SQL as list operations:

* `WHERE is_deleted = FALSE` is a `filter`;
* `ORDER BY paid_at DESC` is a stable `insertionSort` by descending
  `paid_at` (the deterministic reading of the query's ordering);
* `LIMIT n` is `take`;
* `date_trunc('month', paid_at) = date_trunc('month', now())` is
  equality of the calendar-month index `ym` (month truncation in the
  session's operating timezone);
* `SELECT COALESCE(SUM(amount), 0)` is `List.sum` over the mapped
  amounts (empty sum is `0`, matching the COALESCE);
* `GROUP BY k ... ORDER BY total DESC` lists the distinct raw key
  strings with the per-key sums, then sorts by descending sum.

The Gemini call `generate_content` is external; its outcome is a
parameter of the embedded adapter, together with a flag recording
whether the network call was attempted.
-/

namespace HouseholdBot

/-- Timestamp with timezone awareness, split into the calendar-month
index `ym` (what `date_trunc('month', ·)` extracts in the operating
timezone) and the position `sub` inside that month; `paid_at` ordering
is lexicographic on the pair. -/
structure Timestamp where
  ym : Nat
  sub : Nat
deriving DecidableEq, Repr

/-- Ordering of timestamps: lexicographic on (calendar month, position
inside the month). -/
def tsLe (a b : Timestamp) : Prop :=
  a.ym < b.ym ∨ (a.ym = b.ym ∧ a.sub ≤ b.sub)

instance : DecidableRel tsLe := fun a b => by
  unfold tsLe; infer_instance

/-- A row of the `payments` table. -/
structure Payment where
  id : Nat
  paid_at : Timestamp
  shop : String
  amount : Int
  category : String
  payer : String
  card_type : String
  memo : String
  is_deleted : Bool
deriving DecidableEq, Repr

/-- Ordering used by `ORDER BY paid_at DESC`: `p` comes before `q` when
`p.paid_at` is at least `q.paid_at`. -/
def paymentOrder (p q : Payment) : Prop := tsLe q.paid_at p.paid_at

instance : DecidableRel paymentOrder := fun p q => by
  unfold paymentOrder; infer_instance

instance : IsTotal Payment paymentOrder :=
  ⟨fun p q => by unfold paymentOrder tsLe; omega⟩

instance : IsTrans Payment paymentOrder :=
  ⟨fun p q r hpq hqr => by
    unfold paymentOrder tsLe at *; omega⟩

/-- Ordering used by `ORDER BY total DESC` on grouped (key, sum) pairs. -/
def amountOrder (a b : String × Int) : Prop := b.2 ≤ a.2

instance : DecidableRel amountOrder := fun a b => by
  unfold amountOrder; infer_instance

instance : IsTotal (String × Int) amountOrder :=
  ⟨fun a b => Int.le_total b.2 a.2⟩

instance : IsTrans (String × Int) amountOrder :=
  ⟨fun _ _ _ hab hbc => le_trans hbc hab⟩

/-- The database state: the `payments` table rows in insertion order,
plus the next value of the SERIAL `id` sequence. -/
structure DB where
  rows : List Payment
  next_id : Nat
deriving Repr

/-- Wellformedness of a reachable database state: ids are pairwise
distinct (SERIAL PRIMARY KEY) and below the sequence counter. -/
def DB.WF (db : DB) : Prop :=
  (db.rows.map Payment.id).Nodup ∧ ∀ p ∈ db.rows, p.id < db.next_id

instance : DecidablePred DB.WF := fun db => by
  unfold DB.WF; infer_instance

/-- The `!pay` command's INSERT (bot.py lines 197-204): appends a fresh
active row with `memo = ""` and the SERIAL-assigned id. -/
def pay (db : DB) (paid_at : Timestamp) (amount : Int)
    (category payer card_type shop : String) : DB :=
  { rows := db.rows ++
      [{ id := db.next_id, paid_at := paid_at, shop := shop,
         amount := amount, category := category, payer := payer,
         card_type := card_type, memo := "", is_deleted := false }],
    next_id := db.next_id + 1 }

/-- Active rows sorted by `paid_at` descending: the result set of
`SELECT ... WHERE is_deleted = FALSE ORDER BY paid_at DESC`. -/
def activeDesc (db : DB) : List Payment :=
  List.insertionSort paymentOrder (db.rows.filter (fun p => !p.is_deleted))

/-- Limit adjustment at the top of the `!recent` handler
(bot.py lines 231-234): `if limit <= 0: limit = 10`, then
`if limit > 50: limit = 50`. -/
def clampLimit (limit : Int) : Int :=
  let limit := if limit ≤ 0 then 10 else limit
  if limit > 50 then 50 else limit

/-- The Python default argument `limit: int = 10` of `recent`. -/
def recentDefaultLimit : Int := 10

/-- The `!recent` command's query (bot.py lines 239-248): active rows,
`ORDER BY paid_at DESC LIMIT limit` after clamping. -/
def recent (db : DB) (limit : Int) : List Payment :=
  (activeDesc db).take (clampLimit limit).toNat

/-- Outcome of the `!delete` command. -/
inductive DeleteResult where
  | notFound
  | alreadyDeleted
  | deleted (p : Payment)
deriving DecidableEq, Repr

/-- Row update `UPDATE payments SET is_deleted = TRUE WHERE id = %s`. -/
def markDeleted (rows : List Payment) (payment_id : Nat) : List Payment :=
  rows.map (fun p => if p.id = payment_id then { p with is_deleted := true } else p)

/-- The `!delete` command (bot.py lines 275-309): SELECT the row by id;
absent → not-found reply, no mutation; already deleted → already-deleted
reply, no mutation; otherwise UPDATE the flag, commit, and reply with
the row as fetched before the update. -/
def delete_payment (db : DB) (payment_id : Nat) : DeleteResult × DB :=
  match db.rows.find? (fun p => p.id == payment_id) with
  | none => (.notFound, db)
  | some row =>
    if row.is_deleted then (.alreadyDeleted, db)
    else (.deleted row, { db with rows := markDeleted db.rows payment_id })

/-- Outcome of the `!undo` command. -/
inductive UndoResult where
  | nothingToUndo
  | undone (p : Payment)
deriving DecidableEq, Repr

/-- The `!undo` command (bot.py lines 311-344): fetch the first row of
the same active-descending query with `LIMIT 1`; if none, reply
nothing-to-undo; otherwise UPDATE its `is_deleted` flag and reply with
the fetched row. -/
def undo (db : DB) : UndoResult × DB :=
  match activeDesc db with
  | [] => (.nothingToUndo, db)
  | row :: _ =>
    (.undone row, { db with rows := markDeleted db.rows row.id })

/-- Current-month active rows: the WHERE clause shared by the three
summary queries (bot.py lines 78-121) and the `!month` command. -/
def monthRows (db : DB) (now : Timestamp) : List Payment :=
  db.rows.filter (fun p => !p.is_deleted && p.paid_at.ym == now.ym)

/-- The `!month` command's query (bot.py lines 386-395):
`SELECT COALESCE(SUM(amount), 0)` over current-month active rows. -/
def monthTotalCmd (db : DB) (now : Timestamp) : Int :=
  ((monthRows db now).map Payment.amount).sum

/-- Fuel-indexed worker for `distinctKeys`; the fuel is an upper bound
on the list length, so the zero-fuel non-nil case is unreachable. -/
def distinctKeysFuel : Nat → List String → List String
  | _, [] => []
  | 0, _ :: _ => []
  | n + 1, k :: ks => k :: distinctKeysFuel n (ks.filter (fun x => x ≠ k))

/-- Distinct keys in first-occurrence order, as produced by GROUP BY. -/
def distinctKeys (l : List String) : List String :=
  distinctKeysFuel l.length l

/-- Per-key aggregate `COALESCE(SUM(amount), 0) ... GROUP BY` : the sum
of `amount` over the rows whose key string is exactly `k`. -/
def groupSum (key : Payment → String) (rows : List Payment) (k : String) : Int :=
  ((rows.filter (fun p => key p == k)).map Payment.amount).sum

/-- One `GROUP BY key ... ORDER BY total DESC` result set. -/
def breakdown (key : Payment → String) (rows : List Payment) :
    List (String × Int) :=
  List.insertionSort amountOrder
    ((distinctKeys (rows.map key)).map (fun k => (k, groupSum key rows k)))

/-- Return value of `get_month_summary_for_ai`. -/
structure MonthSummary where
  total_amount : Int
  category_summary : List (String × Int)
  card_summary : List (String × Int)
deriving Repr

/-- The month summary assembled for Gemini (bot.py lines 66-131): total,
per-category and per-card breakdowns over current-month active rows. -/
def get_month_summary_for_ai (db : DB) (now : Timestamp) : MonthSummary :=
  { total_amount := monthTotalCmd db now,
    category_summary := breakdown Payment.category (monthRows db now),
    card_summary := breakdown Payment.card_type (monthRows db now) }

/-- Python's `str.strip()`: remove leading and trailing whitespace
characters, nothing else. -/
def stripStr (s : String) : String :=
  ⟨((s.data.dropWhile Char.isWhitespace).reverse.dropWhile
      Char.isWhitespace).reverse⟩

/-- Outcome of the external `generate_content` call, as observed by the
adapter: the call raises; or it returns a response whose `text`
attribute is missing (the `getattr` default applies); or is `None`
(`.strip()` then raises `AttributeError`, caught by the same handler);
or is an actual string. -/
inductive GeminiOutcome where
  | raises
  | noTextAttr
  | noneText
  | text (s : String)
deriving DecidableEq, Repr

/-- What the adapter returns, plus whether the remote call was
attempted at all. -/
structure CommentResult where
  text : String
  attemptedNetwork : Bool
deriving DecidableEq, Repr

/-- The fixed explanatory reply when no Gemini credential is set. -/
def noKeyMessage : String := "Gemini APIキーが設定されていません。"

/-- The fixed instruction template (bot.py lines 138-151): output
language, the 120-character ceiling — which lives only in this prompt
text, nowhere in code — tone rules, and the serialized event and month
summary. -/
def geminiPrompt (latest_payment month_summary : String) : String :=
  "あなたは日本語で家計をゆるく見守るアシスタントです。\n" ++
  "・出力は必ず日本語で、120文字以内で書いてください。\n" ++
  "・親しみやすい口調で、堅苦しくならないようにしてください。\n" ++
  "・絵文字は使わないでください\n" ++
  "・敬語で話してください。\n" ++
  "[最新の支出]\n" ++ latest_payment ++ "\n" ++
  "[今月のサマリ]\n" ++ month_summary

/-- The adapter `ask_gemini_for_comment` (bot.py lines 133-163):
short-circuit on a missing credential before building the prompt or
touching the network; otherwise attempt the call and normalize every
failure or missing text to the empty string, and a string response to
its stripped form. -/
def ask_gemini_for_comment (apiKey : Option String)
    (latest_payment month_summary : String)
    (call : GeminiOutcome) : CommentResult :=
  match apiKey with
  | none => { text := noKeyMessage, attemptedNetwork := false }
  | some _ =>
    let _prompt := geminiPrompt latest_payment month_summary
    match call with
    | .raises => { text := "", attemptedNetwork := true }
    | .noTextAttr => { text := stripStr "", attemptedNetwork := true }
    | .noneText => { text := "", attemptedNetwork := true }
    | .text s => { text := stripStr s, attemptedNetwork := true }

/-- Observable effects of the `!pay` handler, in program order. -/
inductive Effect where
  | insertPayment
  | commitPayment
  | querySummary
  | callGemini
  | sendReply
deriving DecidableEq, Repr

/-- Result of one run of the `!pay` handler. -/
structure PayReply where
  db : DB
  effects : List Effect
  message : String
deriving Repr

/-- The `!pay` handler (bot.py lines 175-227) as straight-line code:
INSERT and COMMIT the new row, then query the month summary, then call
Gemini, then send one reply (with the AI comment appended only when
non-empty).  The effect list records the order in which those steps
run. -/
def payHandler (db : DB) (nowTs : Timestamp) (apiKey : Option String)
    (call : GeminiOutcome) (amount : Int)
    (category payer card_type shop : String) : PayReply :=
  let db1 := pay db nowTs amount category payer card_type shop
  let month_summary := get_month_summary_for_ai db1 nowTs
  let comment := ask_gemini_for_comment apiKey
    (reprStr (nowTs, shop, amount, category, payer, card_type))
    (reprStr month_summary) call
  let base := "記録しました：" ++ shop ++ " " ++ toString amount ++ "円" ++
    "（カテゴリ: " ++ category ++ ", 支払者: " ++ payer ++
    ", カード: " ++ card_type ++ "）"
  { db := db1,
    effects := [.insertPayment, .commitPayment, .querySummary,
      .callGemini, .sendReply],
    message := if comment.text = "" then base
      else base ++ "\nAIコメント：" ++ comment.text }

/-- Members of `takeWhile p l` satisfy `p`. -/
lemma mem_takeWhile_isTrue {p : Char → Bool} {c : Char} :
    ∀ {l : List Char}, c ∈ l.takeWhile p → p c = true := by
  intro l
  induction l with
  | nil => simp
  | cons a t ih =>
    intro hc
    by_cases ha : p a = true
    · rw [List.takeWhile_cons_of_pos ha] at hc
      rcases List.mem_cons.mp hc with h | h
      · exact h ▸ ha
      · exact ih h
    · rw [List.takeWhile_cons_of_neg ha] at hc
      simp at hc

/-- Decomposition of `stripStr`: the input is a whitespace prefix, the
stripped text verbatim, and a whitespace suffix. -/
lemma stripStr_decomp (s : String) :
    ∃ pre post, s.data = pre ++ (stripStr s).data ++ post ∧
      (∀ c ∈ pre, c.isWhitespace = true) ∧
      (∀ c ∈ post, c.isWhitespace = true) := by
  refine ⟨s.data.takeWhile Char.isWhitespace,
    ((s.data.dropWhile Char.isWhitespace).reverse.takeWhile
      Char.isWhitespace).reverse, ?_,
    fun _ hc => mem_takeWhile_isTrue hc,
    fun _ hc => mem_takeWhile_isTrue (List.mem_reverse.mp hc)⟩
  have h1 : (s.data.dropWhile Char.isWhitespace).reverse.takeWhile
        Char.isWhitespace ++
      (s.data.dropWhile Char.isWhitespace).reverse.dropWhile
        Char.isWhitespace =
      (s.data.dropWhile Char.isWhitespace).reverse :=
    List.takeWhile_append_dropWhile _ _
  have h2 := congrArg List.reverse h1
  rw [List.reverse_append, List.reverse_reverse] at h2
  show s.data = s.data.takeWhile Char.isWhitespace ++
      ((s.data.dropWhile Char.isWhitespace).reverse.dropWhile
        Char.isWhitespace).reverse ++
      ((s.data.dropWhile Char.isWhitespace).reverse.takeWhile
        Char.isWhitespace).reverse
  rw [List.append_assoc, h2, List.takeWhile_append_dropWhile]

/-- A whitespace-only input strips to the empty string. -/
lemma stripStr_of_all_whitespace {s : String}
    (h : ∀ c ∈ s.data, c.isWhitespace = true) : stripStr s = "" := by
  have hdrop : s.data.dropWhile Char.isWhitespace = [] :=
    List.dropWhile_eq_nil_iff.mpr h
  show String.mk _ = ""
  rw [hdrop]
  rfl

/-- C1: the commentary adapter never raises out of its own boundary:
whatever the remote call does — raising, returning a response with a
missing or `None` `text`, or returning an empty text — the adapter
returns the empty string; and with no configured credential it returns
the fixed explanatory string without attempting the network call. -/
theorem commentary_failures_absorbed
    (k ev ms : String) (call : GeminiOutcome) :
    ask_gemini_for_comment none ev ms call =
      { text := noKeyMessage, attemptedNetwork := false } ∧
    (ask_gemini_for_comment (some k) ev ms .raises).text = "" ∧
    (ask_gemini_for_comment (some k) ev ms .noTextAttr).text = "" ∧
    (ask_gemini_for_comment (some k) ev ms .noneText).text = "" ∧
    (ask_gemini_for_comment (some k) ev ms (.text "")).text = "" := by
  refine ⟨rfl, rfl, rfl, rfl, ?_⟩
  show stripStr "" = ""
  exact stripStr_of_all_whitespace (by intro c hc; simp at hc)

/-- C10: for a non-exceptional model response carrying a text string,
the adapter returns exactly the stripped text: the input is the
returned text surrounded by whitespace only (so nothing interior is
altered and nothing is truncated), a whitespace-only response yields
the empty string, and a stripped text longer than 120 characters is
returned in full — the ceiling is never enforced. -/
theorem comment_text_stripped_not_truncated (k ev ms s : String) :
    (ask_gemini_for_comment (some k) ev ms (.text s)).text = stripStr s ∧
    (∃ pre post, s.data = pre ++
        (ask_gemini_for_comment (some k) ev ms (.text s)).text.data ++ post ∧
      (∀ c ∈ pre, c.isWhitespace = true) ∧
      (∀ c ∈ post, c.isWhitespace = true)) ∧
    ((∀ c ∈ s.data, c.isWhitespace = true) →
      (ask_gemini_for_comment (some k) ev ms (.text s)).text = "") ∧
    (120 < (stripStr s).length →
      120 < (ask_gemini_for_comment (some k) ev ms (.text s)).text.length) := by
  refine ⟨rfl, stripStr_decomp s, ?_, ?_⟩
  · intro h
    show stripStr s = ""
    exact stripStr_of_all_whitespace h
  · intro h
    exact h

/-- Concrete witness for C10: a padded text is stripped, a blank text
becomes empty, and a 121-character text is returned in full. -/
theorem comment_text_stripped_witness :
    (ask_gemini_for_comment (some "key") "ev" "ms"
      (.text " abc ")).text = stripStr " abc " ∧
    (ask_gemini_for_comment (some "key") "ev" "ms" (.text "  ")).text = "" ∧
    120 < (ask_gemini_for_comment (some "key") "ev" "ms"
      (.text (String.mk (List.replicate 121 'x')))).text.length :=
  ⟨(comment_text_stripped_not_truncated "key" "ev" "ms" " abc ").1,
   (comment_text_stripped_not_truncated "key" "ev" "ms" "  ").2.2.1
     (by decide),
   (comment_text_stripped_not_truncated "key" "ev" "ms"
      (String.mk (List.replicate 121 'x'))).2.2.2 (by decide)⟩

/-- C7: the effective limit of `recent` always lies in [1, 50]: a
non-positive caller value becomes the default 10, a value above 50
becomes 50, an in-range value passes through, the Python default
argument is 10, and the query takes exactly that many rows. -/
theorem recent_limit_clamped (limit : Int) (db : DB) :
    1 ≤ clampLimit limit ∧ clampLimit limit ≤ 50 ∧
    (limit ≤ 0 → clampLimit limit = 10) ∧
    (50 < limit → clampLimit limit = 50) ∧
    (1 ≤ limit → limit ≤ 50 → clampLimit limit = limit) ∧
    clampLimit recentDefaultLimit = 10 ∧
    recent db limit = (activeDesc db).take (clampLimit limit).toNat := by
  unfold clampLimit recentDefaultLimit
  refine ⟨?_, ?_, ?_, ?_, ?_, by decide, rfl⟩ <;>
    (simp only []; split_ifs <;> omega)

/-- Concrete witness for C7: a negative limit clamps to 10, an oversized
one to 50, an in-range one passes through. -/
theorem recent_limit_clamped_witness :
    clampLimit (-3) = 10 ∧ clampLimit 99 = 50 ∧ clampLimit 7 = 7 :=
  ⟨(recent_limit_clamped (-3) ⟨[], 0⟩).2.2.1 (by decide),
   (recent_limit_clamped 99 ⟨[], 0⟩).2.2.2.1 (by decide),
   (recent_limit_clamped 7 ⟨[], 0⟩).2.2.2.2.1 (by decide) (by decide)⟩

/-- C9: in the `!pay` handler the INSERT and its COMMIT strictly precede
the Gemini call, and the resulting database state is exactly the one
with the new row committed, independent of the Gemini outcome — a
failing or hung remote call can only delay the reply, never undo the
record. -/
theorem pay_commit_precedes_gemini (db : DB) (nowTs : Timestamp)
    (apiKey : Option String) (call : GeminiOutcome) (amount : Int)
    (category payer card_type shop : String) :
    (payHandler db nowTs apiKey call amount category payer card_type shop).db
      = pay db nowTs amount category payer card_type shop ∧
    (payHandler db nowTs apiKey call amount category payer card_type
        shop).effects.indexOf .insertPayment <
      (payHandler db nowTs apiKey call amount category payer card_type
        shop).effects.indexOf .callGemini ∧
    (payHandler db nowTs apiKey call amount category payer card_type
        shop).effects.indexOf .commitPayment <
      (payHandler db nowTs apiKey call amount category payer card_type
        shop).effects.indexOf .callGemini := by
  have heff : (payHandler db nowTs apiKey call amount category payer
      card_type shop).effects = [Effect.insertPayment, Effect.commitPayment,
      Effect.querySummary, Effect.callGemini, Effect.sendReply] := rfl
  refine ⟨rfl, ?_, ?_⟩ <;> rw [heff] <;> decide

/-- With pairwise-distinct ids, the SELECT-by-id (`find?`) returns the
unique row carrying that id. -/
lemma find?_of_nodup_ids {rows : List Payment}
    (hnd : (rows.map Payment.id).Nodup) {row : Payment} (hmem : row ∈ rows)
    (pid : Nat) (hid : row.id = pid) :
    rows.find? (fun p => p.id == pid) = some row := by
  induction rows with
  | nil => simp at hmem
  | cons a t ih =>
    rw [List.map_cons, List.nodup_cons] at hnd
    rcases List.mem_cons.mp hmem with h | h
    · subst h
      exact List.find?_cons_of_pos _ (by simp [hid])
    · by_cases ha : a.id = pid
      · exfalso
        apply hnd.1
        have : row.id ∈ t.map Payment.id := List.mem_map_of_mem _ h
        rwa [hid, ← ha] at this
      · rw [List.find?_cons_of_neg _ (by simp [ha])]
        exact ih hnd.2 h

/-- The UPDATE-by-id touches no row's id. -/
lemma markDeleted_map_id (rows : List Payment) (pid : Nat) :
    (markDeleted rows pid).map Payment.id = rows.map Payment.id := by
  unfold markDeleted
  rw [List.map_map]
  apply List.map_congr_left
  intro p _
  by_cases h : p.id = pid <;> simp [h]

/-- C2: `delete` has exactly three outcomes: an absent id signals
not-found and mutates nothing; an already-deleted row signals
already-deleted and mutates nothing; an active row is flipped to
deleted, its pre-deletion fields are returned, and a second call on the
same id is an idempotent no-op signalling already-deleted. -/
theorem soft_delete_outcomes (db : DB) (hWF : db.WF) (pid : Nat) :
    ((∀ p ∈ db.rows, p.id ≠ pid) →
      delete_payment db pid = (.notFound, db)) ∧
    (∀ row ∈ db.rows, row.id = pid → row.is_deleted = true →
      delete_payment db pid = (.alreadyDeleted, db)) ∧
    (∀ row ∈ db.rows, row.id = pid → row.is_deleted = false →
      (delete_payment db pid).1 = .deleted row ∧
      (delete_payment db pid).2.rows = markDeleted db.rows pid ∧
      delete_payment (delete_payment db pid).2 pid =
        (.alreadyDeleted, (delete_payment db pid).2)) := by
  obtain ⟨hnd, -⟩ := hWF
  refine ⟨?_, ?_, ?_⟩
  · intro h
    have hf : db.rows.find? (fun p => p.id == pid) = none :=
      List.find?_eq_none.mpr (fun p hp => by simp [h p hp])
    unfold delete_payment
    rw [hf]
  · intro row hmem hid hdel
    have hf := find?_of_nodup_ids hnd hmem pid hid
    unfold delete_payment
    rw [hf]
    simp [hdel]
  · intro row hmem hid hdel
    have hf := find?_of_nodup_ids hnd hmem pid hid
    have h1 : delete_payment db pid =
        (.deleted row, { db with rows := markDeleted db.rows pid }) := by
      unfold delete_payment
      rw [hf]
      simp [hdel]
    refine ⟨by rw [h1], by rw [h1], ?_⟩
    have hnd' : ((markDeleted db.rows pid).map Payment.id).Nodup := by
      rw [markDeleted_map_id]; exact hnd
    have hmem' : ({ row with is_deleted := true } : Payment) ∈
        markDeleted db.rows pid := by
      unfold markDeleted
      have hm := List.mem_map_of_mem
        (fun p => if p.id = pid then { p with is_deleted := true } else p)
        hmem
      simpa [hid] using hm
    have hf' : (markDeleted db.rows pid).find? (fun p => p.id == pid) =
        some { row with is_deleted := true } :=
      find?_of_nodup_ids hnd' hmem' pid (by simp [hid])
    rw [h1]
    unfold delete_payment
    rw [show ({ db with rows := markDeleted db.rows pid } : DB).rows =
      markDeleted db.rows pid from rfl, hf']
    simp

/-- Concrete sample rows and database used by the witnesses. -/
def rowA : Payment :=
  { id := 0, paid_at := ⟨24300, 3⟩, shop := "イオン", amount := 3500,
    category := "食費", payer := "共同", card_type := "イオン",
    memo := "", is_deleted := false }

def rowB : Payment :=
  { id := 1, paid_at := ⟨24300, 7⟩, shop := "マクド", amount := 1200,
    category := "外食", payer := "夫", card_type := "三井住友",
    memo := "", is_deleted := true }

def sampleDB : DB := { rows := [rowA, rowB], next_id := 2 }

/-- Concrete witness for C2: on the sample database, a stale id is
not-found, the deleted row reports already-deleted, and deleting the
active row returns it and makes a second delete a no-op. -/
theorem soft_delete_outcomes_witness :
    delete_payment sampleDB 5 = (.notFound, sampleDB) ∧
    delete_payment sampleDB 1 = (.alreadyDeleted, sampleDB) ∧
    (delete_payment sampleDB 0).1 = .deleted rowA ∧
    delete_payment (delete_payment sampleDB 0).2 0 =
      (.alreadyDeleted, (delete_payment sampleDB 0).2) := by
  have h5 := soft_delete_outcomes sampleDB (by decide) 5
  have h1 := soft_delete_outcomes sampleDB (by decide) 1
  have h0 := soft_delete_outcomes sampleDB (by decide) 0
  exact ⟨h5.1 (by decide), h1.2.1 rowB (by decide) rfl rfl,
    (h0.2.2 rowA (by decide) rfl rfl).1, (h0.2.2 rowA (by decide) rfl rfl).2.2⟩

/-- Sorting commutes with membership: the active-descending result set
holds exactly the active rows. -/
lemma mem_activeDesc {db : DB} {p : Payment} :
    p ∈ activeDesc db ↔ p ∈ db.rows ∧ p.is_deleted = false := by
  rw [activeDesc, (List.perm_insertionSort _ _).mem_iff, List.mem_filter]
  simp

/-- The active-descending result set is sorted by descending paid_at. -/
lemma activeDesc_sorted (db : DB) :
    List.Sorted paymentOrder (activeDesc db) :=
  List.sorted_insertionSort _ _

/-- When every row is deleted, the active-descending result set is
empty. -/
lemma activeDesc_eq_nil {db : DB}
    (h : ∀ p ∈ db.rows, p.is_deleted = true) : activeDesc db = [] := by
  have hfil : db.rows.filter (fun p => !p.is_deleted) = [] := by
    rw [List.filter_eq_nil_iff]
    intro p hp
    simp [h p hp]
  rw [activeDesc, hfil]
  rfl

/-- C6: `recent` returns only active stored rows, in descending
`paid_at` order, exactly `min limit count-of-active` of them; every
active row left out is no later than every returned row; and with no
active rows the result is the empty list. -/
theorem list_recent_correct (db : DB) (limit : Int) :
    (∀ p ∈ recent db limit, p.is_deleted = false ∧ p ∈ db.rows) ∧
    List.Sorted paymentOrder (recent db limit) ∧
    (recent db limit).length = min (clampLimit limit).toNat
      (db.rows.filter (fun p => !p.is_deleted)).length ∧
    (∀ p, p ∈ db.rows → p.is_deleted = false → p ∉ recent db limit →
      ∀ q ∈ recent db limit, tsLe p.paid_at q.paid_at) ∧
    ((∀ p ∈ db.rows, p.is_deleted = true) → recent db limit = []) := by
  refine ⟨?_, ?_, ?_, ?_, ?_⟩
  · intro p hp
    have hp' : p ∈ activeDesc db :=
      (List.take_sublist _ _).mem hp
    exact ⟨(mem_activeDesc.mp hp').2, (mem_activeDesc.mp hp').1⟩
  · exact List.Pairwise.sublist (List.take_sublist _ _) (activeDesc_sorted db)
  · rw [recent, List.length_take, activeDesc,
      (List.perm_insertionSort _ _).length_eq]
  · intro p hmem hact hnotin q hq
    have hpAD : p ∈ activeDesc db := mem_activeDesc.mpr ⟨hmem, hact⟩
    set k := (clampLimit limit).toNat
    have hsplit : (activeDesc db).take k ++ (activeDesc db).drop k =
        activeDesc db := List.take_append_drop k (activeDesc db)
    have hpdrop : p ∈ (activeDesc db).drop k := by
      rcases List.mem_append.mp (hsplit ▸ hpAD) with h | h
      · exact absurd h hnotin
      · exact h
    have hpair : List.Pairwise paymentOrder
        ((activeDesc db).take k ++ (activeDesc db).drop k) := by
      rw [hsplit]; exact activeDesc_sorted db
    exact (List.pairwise_append.mp hpair).2.2 q hq p hpdrop
  · intro h
    rw [recent, activeDesc_eq_nil h, List.take_nil]

/-- A third sample row: active, later in the same month as `rowA`. -/
def rowC : Payment :=
  { id := 2, paid_at := ⟨24300, 9⟩, shop := "すき家", amount := 1200,
    category := "外食", payer := "妻", card_type := "エポス",
    memo := "", is_deleted := false }

def threeDB : DB := { rows := [rowA, rowB, rowC], next_id := 3 }

def deletedDB : DB := { rows := [rowB], next_id := 2 }

/-- Concrete witness for C6: on the three-row database with limit 1 the
later row `rowC` is returned and the skipped active row `rowA` is no
later than it; a fully deleted database lists nothing. -/
theorem list_recent_correct_witness :
    (rowC.is_deleted = false ∧ rowC ∈ threeDB.rows) ∧
    tsLe rowA.paid_at rowC.paid_at ∧
    recent deletedDB 7 = [] := by
  have h := list_recent_correct threeDB 1
  have h2 := list_recent_correct deletedDB 7
  exact ⟨h.1 rowC (by decide),
    h.2.2.2.1 rowA (by decide) (by decide) (by decide) rowC (by decide),
    h2.2.2.2.2 (by decide)⟩

/-- C3: with at least one active payment, `undo` targets exactly the
row `recent 1` returns, marks its id deleted, and that row is excluded
from every subsequent `recent` listing; with no active payment it
signals nothing-to-undo and leaves the state untouched. -/
theorem undo_matches_recent (db : DB) :
    ((∃ p ∈ db.rows, p.is_deleted = false) →
      ∃ r, recent db 1 = [r] ∧ (undo db).1 = .undone r ∧
        (undo db).2.rows = markDeleted db.rows r.id ∧
        ∀ limit : Int, (∀ q ∈ recent (undo db).2 limit, q.id ≠ r.id) ∧
          r ∉ recent (undo db).2 limit) ∧
    ((∀ p ∈ db.rows, p.is_deleted = true) →
      undo db = (.nothingToUndo, db)) := by
  constructor
  · rintro ⟨p, hp, hact⟩
    have hpAD : p ∈ activeDesc db := mem_activeDesc.mpr ⟨hp, hact⟩
    match hAD : activeDesc db with
    | [] => rw [hAD] at hpAD; simp at hpAD
    | r :: t =>
      have hundo : undo db =
          (.undone r, { db with rows := markDeleted db.rows r.id }) := by
        unfold undo; rw [hAD]
      have hrec : recent db 1 = [r] := by
        unfold recent; rw [hAD]; rfl
      refine ⟨r, hrec, by rw [hundo], by rw [hundo], ?_⟩
      intro limit
      have hq : ∀ q ∈ recent (undo db).2 limit, q.id ≠ r.id := by
        intro q hqin
        have hqAD : q ∈ activeDesc (undo db).2 :=
          (List.take_sublist _ _).mem hqin
        obtain ⟨hqrows, hqact⟩ := mem_activeDesc.mp hqAD
        rw [hundo] at hqrows
        obtain ⟨p0, hp0, hfeq⟩ := List.mem_map.mp hqrows
        by_cases hid : p0.id = r.id
        · rw [if_pos hid] at hfeq
          rw [← hfeq] at hqact
          simp at hqact
        · rw [if_neg hid] at hfeq
          rw [← hfeq]
          exact hid
      exact ⟨hq, fun hrin => hq r hrin rfl⟩
  · intro h
    unfold undo
    rw [activeDesc_eq_nil h]

/-- Concrete witness for C3: on the three-row database, `recent 1` and
`undo` both pick `rowC`, which afterwards no longer appears; the fully
deleted database has nothing to undo. -/
theorem undo_matches_recent_witness :
    recent threeDB 1 = [rowC] ∧ (undo threeDB).1 = .undone rowC ∧
    rowC ∉ recent (undo threeDB).2 10 ∧
    undo deletedDB = (.nothingToUndo, deletedDB) := by
  obtain ⟨r, hr1, hr2, -, hall⟩ :=
    (undo_matches_recent threeDB).1 ⟨rowC, by decide, rfl⟩
  have hev : recent threeDB 1 = [rowC] := by decide
  have hreq : rowC = r := by
    rw [hev] at hr1
    injection hr1
  subst hreq
  exact ⟨hev, hr2, (hall 10).2, (undo_matches_recent deletedDB).2 (by decide)⟩

/-- Equality of every field except `is_deleted`. -/
def fieldsEq (p q : Payment) : Prop :=
  q.id = p.id ∧ q.paid_at = p.paid_at ∧ q.shop = p.shop ∧
  q.amount = p.amount ∧ q.category = p.category ∧ q.payer = p.payer ∧
  q.card_type = p.card_type ∧ q.memo = p.memo

/-- Row-level append-only refinement: the old rows survive in place
with every field unchanged except that `is_deleted` may move from
`false` to `true`, and rows are only added at the end. -/
def preservesRows (old new : List Payment) : Prop :=
  old.length ≤ new.length ∧
  ∀ i (hi : i < old.length) (hi' : i < new.length),
    fieldsEq (old.get ⟨i, hi⟩) (new.get ⟨i, hi'⟩) ∧
    ((old.get ⟨i, hi⟩).is_deleted = true →
      (new.get ⟨i, hi'⟩).is_deleted = true)

lemma preservesRows_refl (l : List Payment) : preservesRows l l := by
  refine ⟨le_rfl, fun i hi hi' => ?_⟩
  refine ⟨⟨rfl, rfl, rfl, rfl, rfl, rfl, rfl, rfl⟩, fun h => h⟩

lemma preservesRows_append (l : List Payment) (x : Payment) :
    preservesRows l (l ++ [x]) := by
  refine ⟨by simp, fun i hi hi' => ?_⟩
  have hget : (l ++ [x]).get ⟨i, hi'⟩ = l.get ⟨i, hi⟩ :=
    List.getElem_append_left hi
  rw [hget]
  exact ⟨⟨rfl, rfl, rfl, rfl, rfl, rfl, rfl, rfl⟩, fun h => h⟩

lemma preservesRows_markDeleted (l : List Payment) (pid : Nat) :
    preservesRows l (markDeleted l pid) := by
  refine ⟨by simp [markDeleted], fun i hi hi' => ?_⟩
  have hget : (markDeleted l pid).get ⟨i, hi'⟩ =
      if (l.get ⟨i, hi⟩).id = pid
        then { l.get ⟨i, hi⟩ with is_deleted := true }
        else l.get ⟨i, hi⟩ := by
    simp [markDeleted]
  rw [hget]
  by_cases h : (l.get ⟨i, hi⟩).id = pid
  · rw [if_pos h]
    exact ⟨⟨rfl, rfl, rfl, rfl, rfl, rfl, rfl, rfl⟩, fun _ => rfl⟩
  · rw [if_neg h]
    exact ⟨⟨rfl, rfl, rfl, rfl, rfl, rfl, rfl, rfl⟩, fun hd => hd⟩

lemma markDeleted_length (l : List Payment) (pid : Nat) :
    (markDeleted l pid).length = l.length := by
  simp [markDeleted]

/-- The rows after a `delete` are either untouched or the UPDATE image. -/
lemma delete_payment_rows_cases (db : DB) (pid : Nat) :
    (delete_payment db pid).2.rows = db.rows ∨
    (delete_payment db pid).2.rows = markDeleted db.rows pid := by
  unfold delete_payment
  cases db.rows.find? (fun p => p.id == pid) with
  | none => exact Or.inl rfl
  | some row =>
    by_cases h : row.is_deleted = true <;> simp [h]

/-- The rows after an `undo` are either untouched or the UPDATE image. -/
lemma undo_rows_cases (db : DB) :
    (undo db).2.rows = db.rows ∨
    ∃ pid, (undo db).2.rows = markDeleted db.rows pid := by
  unfold undo
  cases activeDesc db with
  | nil => exact Or.inl rfl
  | cons r t => exact Or.inr ⟨r.id, rfl⟩

/-- C8: every operation is append-only at the row level: `pay` appends
one row and edits none, `delete` and `undo` keep every row in place and
every field unchanged except the one-way `is_deleted` transition, and
no operation ever removes a row. -/
theorem append_only_rows (db : DB) (ts : Timestamp) (amount : Int)
    (category payer card_type shop : String) (pid : Nat) :
    preservesRows db.rows
      (pay db ts amount category payer card_type shop).rows ∧
    (pay db ts amount category payer card_type shop).rows.length =
      db.rows.length + 1 ∧
    preservesRows db.rows (delete_payment db pid).2.rows ∧
    (delete_payment db pid).2.rows.length = db.rows.length ∧
    preservesRows db.rows (undo db).2.rows ∧
    (undo db).2.rows.length = db.rows.length := by
  refine ⟨preservesRows_append _ _, by simp [pay], ?_, ?_, ?_, ?_⟩
  · rcases delete_payment_rows_cases db pid with h | h <;> rw [h]
    · exact preservesRows_refl _
    · exact preservesRows_markDeleted _ _
  · rcases delete_payment_rows_cases db pid with h | h <;> rw [h]
    exact markDeleted_length _ _
  · rcases undo_rows_cases db with h | ⟨q, h⟩ <;> rw [h]
    · exact preservesRows_refl _
    · exact preservesRows_markDeleted _ _
  · rcases undo_rows_cases db with h | ⟨q, h⟩ <;> rw [h]
    exact markDeleted_length _ _

lemma distinctKeysFuel_nil (n : Nat) : distinctKeysFuel n [] = [] := by
  cases n <;> rfl

/-- The fuel argument of `distinctKeysFuel` is irrelevant once it bounds
the list length. -/
lemma distinctKeysFuel_congr :
    ∀ (n m : Nat) (l : List String), l.length ≤ n → l.length ≤ m →
      distinctKeysFuel n l = distinctKeysFuel m l := by
  intro n
  induction n with
  | zero =>
    intro m l hn _
    match l with
    | [] => rw [distinctKeysFuel_nil, distinctKeysFuel_nil]
    | _ :: _ => simp at hn
  | succ n ih =>
    intro m l hn hm
    match l with
    | [] => rw [distinctKeysFuel_nil, distinctKeysFuel_nil]
    | k :: ks =>
      match m with
      | 0 => simp at hm
      | m' + 1 =>
        show k :: distinctKeysFuel n (ks.filter (fun x => x ≠ k)) =
          k :: distinctKeysFuel m' (ks.filter (fun x => x ≠ k))
        congr 1
        exact ih m' _
          (le_trans (List.length_filter_le _ _) (Nat.le_of_succ_le_succ hn))
          (le_trans (List.length_filter_le _ _) (Nat.le_of_succ_le_succ hm))

lemma distinctKeys_cons (k : String) (ks : List String) :
    distinctKeys (k :: ks) =
      k :: distinctKeys (ks.filter (fun x => x ≠ k)) := by
  show k :: distinctKeysFuel ks.length (ks.filter (fun x => x ≠ k)) = _
  congr 1
  exact distinctKeysFuel_congr _ _ _ (List.length_filter_le _ _) le_rfl

/-- Every produced group key occurs in the input key list. -/
lemma mem_distinctKeys :
    ∀ (n : Nat) (l : List String), l.length ≤ n →
      ∀ k ∈ distinctKeys l, k ∈ l := by
  intro n
  induction n with
  | zero =>
    intro l hl k hk
    rw [Nat.le_zero, List.length_eq_zero] at hl
    subst hl
    simp [distinctKeys, distinctKeysFuel] at hk
  | succ n ih =>
    intro l hl k hk
    match l with
    | [] => simp [distinctKeys, distinctKeysFuel] at hk
    | k0 :: ks =>
      rw [distinctKeys_cons] at hk
      rcases List.mem_cons.mp hk with h | h
      · exact h ▸ List.mem_cons_self _ _
      · have hlen : (ks.filter (fun x => x ≠ k0)).length ≤ n :=
          le_trans (List.length_filter_le _ _) (Nat.le_of_succ_le_succ hl)
        exact List.mem_cons_of_mem _
          (List.mem_of_mem_filter (ih _ hlen k h))

/-- Splitting a summed projection along a Boolean filter. -/
lemma sum_map_filter_split (p : Payment → Bool) (t : List Payment) :
    ((t.filter p).map Payment.amount).sum +
      ((t.filter (fun a => !p a)).map Payment.amount).sum =
      (t.map Payment.amount).sum := by
  induction t with
  | nil => simp
  | cons a t ih =>
    cases h : p a <;> simp [List.filter_cons, h] <;> omega

/-- Unfolding `groupSum` over a cons cell. -/
lemma groupSum_cons (key : Payment → String) (r : Payment)
    (t : List Payment) (k : String) :
    groupSum key (r :: t) k =
      if key r = k then r.amount + groupSum key t k
      else groupSum key t k := by
  unfold groupSum
  by_cases h : key r = k
  · rw [if_pos h, List.filter_cons_of_pos (by simp [h]), List.map_cons,
      List.sum_cons]
  · rw [if_neg h, List.filter_cons_of_neg (by simp [h])]

/-- Rows with a different key do not change a group's sum. -/
lemma groupSum_filter_ne (key : Payment → String) (t : List Payment)
    {k k0 : String} (h : k ≠ k0) :
    groupSum key (t.filter (fun p => key p ≠ k0)) k = groupSum key t k := by
  unfold groupSum
  rw [List.filter_filter]
  congr 1
  congr 1
  apply List.filter_congr
  intro p _
  by_cases hp : key p = k <;> simp [hp, h]

/-- Partition law of GROUP BY: the group sums over the distinct keys
add up to the ungrouped total. -/
lemma groupSum_partition (key : Payment → String) :
    ∀ (n : Nat) (rows : List Payment), rows.length ≤ n →
      ((distinctKeys (rows.map key)).map
        (fun k => groupSum key rows k)).sum =
        (rows.map Payment.amount).sum := by
  intro n
  induction n with
  | zero =>
    intro rows h
    rw [Nat.le_zero, List.length_eq_zero] at h
    subst h
    rfl
  | succ n ih =>
    intro rows h
    match rows with
    | [] => rfl
    | r :: t =>
      rw [List.map_cons, distinctKeys_cons]
      have hmf : (t.map key).filter (fun x => x ≠ key r) =
          (t.filter (fun p => key p ≠ key r)).map key := by
        rw [List.filter_map]
        rfl
      rw [hmf, List.map_cons, List.sum_cons]
      have hpoint : ∀ k ∈ distinctKeys
          ((t.filter (fun p => key p ≠ key r)).map key),
          groupSum key (r :: t) k =
            groupSum key (t.filter (fun p => key p ≠ key r)) k := by
        intro k hk
        have hkmem := mem_distinctKeys _ _ le_rfl k hk
        obtain ⟨p0, hp0, hpk⟩ := List.mem_map.mp hkmem
        have hne : k ≠ key r := by
          have hfp := List.of_mem_filter hp0
          rw [← hpk]
          simpa using hfp
        rw [groupSum_cons, if_neg (fun hh => hne hh.symm)]
        exact (groupSum_filter_ne key t hne).symm
      rw [List.map_congr_left hpoint]
      have hlen : (t.filter (fun p => key p ≠ key r)).length ≤ n :=
        le_trans (List.length_filter_le _ _) (Nat.le_of_succ_le_succ h)
      rw [ih _ hlen, groupSum_cons, if_pos rfl, List.map_cons,
        List.sum_cons]
      have hgs : groupSum key t (key r) =
          ((t.filter (fun p => key p == key r)).map Payment.amount).sum := by
        unfold groupSum
        rfl
      have hcompl : t.filter (fun a => !(key a == key r)) =
          t.filter (fun p => key p ≠ key r) := by
        apply List.filter_congr
        intro p _
        by_cases hp : key p = key r <;> simp [hp]
      have hsplit := sum_map_filter_split (fun p => key p == key r) t
      rw [hcompl] at hsplit
      rw [hgs]
      omega

/-- Each breakdown entry's amount is the exact-key group sum. -/
lemma breakdown_mem_eq (key : Payment → String) (rows : List Payment)
    {kv : String × Int} (hkv : kv ∈ breakdown key rows) :
    kv.2 = ((rows.filter (fun p => key p = kv.1)).map Payment.amount).sum := by
  obtain ⟨k, -, rfl⟩ := List.mem_map.mp
    ((List.perm_insertionSort amountOrder _).mem_iff.mp hkv)
  show groupSum key rows k =
    ((rows.filter (fun p => key p = k)).map Payment.amount).sum
  unfold groupSum
  have hf : rows.filter (fun p => key p == k) =
      rows.filter (fun p => key p = k) := by
    apply List.filter_congr
    intro p _
    by_cases h : key p = k <;> simp [h]
  rw [hf]

/-- The amounts of one breakdown sum to the ungrouped total. -/
lemma breakdown_snd_sum (key : Payment → String) (rows : List Payment) :
    ((breakdown key rows).map Prod.snd).sum =
      (rows.map Payment.amount).sum := by
  unfold breakdown
  rw [((List.perm_insertionSort amountOrder _).map Prod.snd).sum_eq,
    List.map_map]
  exact groupSum_partition key rows.length rows le_rfl

/-- C4: the `!month` total equals the sum of `amount` over the active
rows of the calendar month of the query time, the AI summary reports
the same total, and the total is 0 — never null — when that month has
no active payment. -/
theorem monthly_total_correct (db : DB) (now : Timestamp) :
    monthTotalCmd db now =
      ((db.rows.filter (fun p =>
        p.is_deleted = false ∧ p.paid_at.ym = now.ym)).map
        Payment.amount).sum ∧
    (get_month_summary_for_ai db now).total_amount = monthTotalCmd db now ∧
    ((∀ p ∈ db.rows, p.is_deleted = false → p.paid_at.ym ≠ now.ym) →
      monthTotalCmd db now = 0) := by
  refine ⟨?_, rfl, ?_⟩
  · unfold monthTotalCmd monthRows
    congr 2
    apply List.filter_congr
    intro p _
    by_cases h1 : p.is_deleted <;> by_cases h2 : p.paid_at.ym = now.ym <;>
      simp [h1, h2]
  · intro h
    have hmr : monthRows db now = [] := by
      unfold monthRows
      rw [List.filter_eq_nil_iff]
      intro p hp
      by_cases h1 : p.is_deleted = true
      · simp [h1]
      · have h1' : p.is_deleted = false := by simpa using h1
        have h2 := h p hp h1'
        simp [h1', h2]
    unfold monthTotalCmd
    rw [hmr]
    rfl

/-- Concrete witness for C4: the sample month totals 4700 over the two
active rows, and a month with no active payment totals 0. -/
theorem monthly_total_correct_witness :
    monthTotalCmd threeDB ⟨24300, 0⟩ = 4700 ∧
    monthTotalCmd deletedDB ⟨24300, 0⟩ = 0 :=
  ⟨by decide, (monthly_total_correct deletedDB ⟨24300, 0⟩).2.2 (by decide)⟩

/-- C5: every breakdown entry's amount is the sum over the active
current-month rows whose category (resp. card) string equals the group
key exactly; each breakdown's amounts sum to the monthly total; both
breakdowns are sorted by amount descending; and an empty active set
yields a zero total and empty breakdowns. -/
theorem monthly_breakdown_correct (db : DB) (now : Timestamp) :
    (∀ kv ∈ (get_month_summary_for_ai db now).category_summary,
      kv.2 = (((monthRows db now).filter
        (fun p => p.category = kv.1)).map Payment.amount).sum) ∧
    (∀ kv ∈ (get_month_summary_for_ai db now).card_summary,
      kv.2 = (((monthRows db now).filter
        (fun p => p.card_type = kv.1)).map Payment.amount).sum) ∧
    ((get_month_summary_for_ai db now).category_summary.map Prod.snd).sum =
      (get_month_summary_for_ai db now).total_amount ∧
    ((get_month_summary_for_ai db now).card_summary.map Prod.snd).sum =
      (get_month_summary_for_ai db now).total_amount ∧
    List.Sorted amountOrder
      (get_month_summary_for_ai db now).category_summary ∧
    List.Sorted amountOrder
      (get_month_summary_for_ai db now).card_summary ∧
    ((∀ p ∈ db.rows, ¬(p.is_deleted = false ∧ p.paid_at.ym = now.ym)) →
      (get_month_summary_for_ai db now).total_amount = 0 ∧
      (get_month_summary_for_ai db now).category_summary = [] ∧
      (get_month_summary_for_ai db now).card_summary = []) := by
  refine ⟨fun kv hkv => breakdown_mem_eq _ _ hkv,
    fun kv hkv => breakdown_mem_eq _ _ hkv,
    breakdown_snd_sum _ _, breakdown_snd_sum _ _,
    List.sorted_insertionSort _ _, List.sorted_insertionSort _ _, ?_⟩
  intro h
  have hmr : monthRows db now = [] := by
    unfold monthRows
    rw [List.filter_eq_nil_iff]
    intro p hp
    by_cases h1 : p.is_deleted = true
    · simp [h1]
    · have h1' : p.is_deleted = false := by simpa using h1
      have h2 : p.paid_at.ym ≠ now.ym := fun hy => h p hp ⟨h1', hy⟩
      simp [h1', h2]
  refine ⟨?_, ?_, ?_⟩
  · show monthTotalCmd db now = 0
    unfold monthTotalCmd
    rw [hmr]
    rfl
  · show breakdown Payment.category (monthRows db now) = []
    rw [hmr]
    rfl
  · show breakdown Payment.card_type (monthRows db now) = []
    rw [hmr]
    rfl

/-- Concrete witness for C5: on the sample database the 食費 group sums
to 3500 over the matching rows, and a month with no active rows yields
a zero total and empty breakdowns. -/
theorem monthly_breakdown_correct_witness :
    (3500 : Int) = (((monthRows threeDB ⟨24300, 0⟩).filter
      (fun p => p.category = "食費")).map Payment.amount).sum ∧
    (get_month_summary_for_ai deletedDB ⟨24300, 0⟩).total_amount = 0 ∧
    (get_month_summary_for_ai deletedDB ⟨24300, 0⟩).category_summary = [] ∧
    (get_month_summary_for_ai deletedDB ⟨24300, 0⟩).card_summary = [] := by
  have h1 := (monthly_breakdown_correct threeDB ⟨24300, 0⟩).1
    ("食費", 3500) (by decide)
  have h2 := (monthly_breakdown_correct deletedDB ⟨24300, 0⟩).2.2.2.2.2.2
    (by decide)
  exact ⟨h1, h2.1, h2.2.1, h2.2.2⟩

end HouseholdBot
